import Mathlib

/-!
Shallow embedding of `src/music.py` (classical-music metadata tagger).

Conventions used throughout:
* file bytes are `List Nat`;
* text is `String` (with helper functions working on `List Char`);
* a mutagen FLAC handle is a finite association list from tag names to
  value lists (`FLACAudio`);
* the external collaborators (mutagen's structural parser, the
  OpenRouter service reply, ffmpeg, the interactive approver) are
  injected as explicit parameters, mirroring the observable contract
  the Python code relies on;
* Python exceptions that the code catches become `Option`/`Except`
  results, and an uncaught exception that aborts the run is modelled
  as `Except.error`.
-/

namespace Music

/-! ### Python string primitives -/

/-- Whitespace characters recognised by Python's `str.strip()`. -/
def isSpace (c : Char) : Bool :=
  c = ' ' || c = '\t' || c = '\n' || c = '\r' || c = Char.ofNat 11 || c = Char.ofNat 12

/-- Drop leading whitespace from a character list (`lstrip`). -/
def stripLeft (l : List Char) : List Char := l.dropWhile isSpace

/-- Drop leading and trailing whitespace (`str.strip()`), on lists. -/
def stripList (l : List Char) : List Char :=
  ((l.dropWhile isSpace).reverse.dropWhile isSpace).reverse

/-- Python `str.strip()`. -/
def pyStrip (s : String) : String := ⟨stripList s.data⟩

/-- ASCII lower-casing of one character, as `str.lower()` acts on the
ASCII range (the only range exercised by the tagger's tag values). -/
def asciiLower (c : Char) : Char :=
  if 'A' ≤ c ∧ c ≤ 'Z' then Char.ofNat (c.toNat + 32) else c

/-- Python `str.lower()` (ASCII fragment). -/
def pyLower (s : String) : String := ⟨s.data.map asciiLower⟩

/-! ### JSON values and `json.loads`

The metadata service replies with JSON text.  `Json` is the value
domain of Python's `json.loads` restricted to the fragment the tagger
exchanges (null/booleans/integers/strings/arrays/objects); `json_loads`
is an executable parser for that fragment, returning `none` where
`json.loads` raises `JSONDecodeError`. -/

inductive Json where
  | null : Json
  | bool (b : Bool) : Json
  | num (n : Int) : Json
  | str (s : String) : Json
  | arr (elems : List Json) : Json
  | obj (fields : List (String × Json)) : Json

/-- Python truthiness of a decoded JSON value (`if metadata:` etc.). -/
def jsonTruthy : Json → Bool
  | .null => false
  | .bool b => b
  | .num n => n != 0
  | .str s => s != ""
  | .arr l => !l.isEmpty
  | .obj l => !l.isEmpty

/-- Numeric value of a decimal digit character, if it is one. -/
def digitVal (c : Char) : Option Nat :=
  if '0' ≤ c ∧ c ≤ '9' then some (c.toNat - 48) else none

/-- Consume a maximal run of decimal digits, accumulating their value. -/
def takeDigitsAux : List Char → Nat → Nat × List Char
  | [], acc => (acc, [])
  | c :: rest, acc =>
    match digitVal c with
    | some d => takeDigitsAux rest (acc * 10 + d)
    | none => (acc, c :: rest)

/-- Parse an optionally signed integer literal (the numeric fragment of
JSON used by the tagger). -/
def takeNumber (l : List Char) : Option (Int × List Char) :=
  match l with
  | '-' :: rest =>
    match rest with
    | c :: _ =>
      if (digitVal c).isSome then
        let p := takeDigitsAux rest 0
        some (-(Int.ofNat p.1), p.2)
      else none
    | [] => none
  | c :: _ =>
    if (digitVal c).isSome then
      let p := takeDigitsAux l 0
      some (Int.ofNat p.1, p.2)
    else none
  | [] => none

/-- Consume a JSON string body up to the closing quote (escape-free
fragment). -/
def takeStrAux : List Char → List Char → Option (String × List Char)
  | [], _ => none
  | c :: rest, acc =>
    if c = '"' then some (⟨acc.reverse⟩, rest)
    else if c = '\\' then none
    else takeStrAux rest (c :: acc)

/-- The `{` character (written by code point to keep it out of string
literals). -/
def lbrace : Char := Char.ofNat 123

/-- The `}` character. -/
def rbrace : Char := Char.ofNat 125

mutual

/-- Fuel-indexed recursive-descent parser for one JSON value. -/
def parseVal : Nat → List Char → Option (Json × List Char)
  | 0, _ => none
  | fuel+1, l =>
    match stripLeft l with
    | [] => none
    | c :: rest =>
      if c = 'n' then
        if rest.take 3 = ['u', 'l', 'l'] then some (.null, rest.drop 3) else none
      else if c = 't' then
        if rest.take 3 = ['r', 'u', 'e'] then some (.bool true, rest.drop 3) else none
      else if c = 'f' then
        if rest.take 4 = ['a', 'l', 's', 'e'] then some (.bool false, rest.drop 4) else none
      else if c = '"' then
        match takeStrAux rest [] with
        | some (s, r) => some (.str s, r)
        | none => none
      else if c = '[' then
        match stripLeft rest with
        | ']' :: r2 => some (.arr [], r2)
        | r => match parseArrItems fuel r with
          | some (xs, r2) => some (.arr xs, r2)
          | none => none
      else if c = lbrace then
        match stripLeft rest with
        | c2 :: r2 =>
          if c2 = rbrace then some (.obj [], r2)
          else match parseObjItems fuel (c2 :: r2) with
            | some (kvs, r3) => some (.obj kvs, r3)
            | none => none
        | [] => none
      else
        match takeNumber (c :: rest) with
        | some (n, r) => some (.num n, r)
        | none => none

/-- Comma-separated array elements up to `]`. -/
def parseArrItems : Nat → List Char → Option (List Json × List Char)
  | 0, _ => none
  | fuel+1, l =>
    match parseVal fuel l with
    | none => none
    | some (v, r) =>
      match stripLeft r with
      | ',' :: r2 =>
        match parseArrItems fuel r2 with
        | some (vs, r3) => some (v :: vs, r3)
        | none => none
      | ']' :: r2 => some ([v], r2)
      | _ => none

/-- Comma-separated `"key": value` pairs up to `}`. -/
def parseObjItems : Nat → List Char → Option (List (String × Json) × List Char)
  | 0, _ => none
  | fuel+1, l =>
    match stripLeft l with
    | '"' :: rest =>
      match takeStrAux rest [] with
      | none => none
      | some (k, r) =>
        match stripLeft r with
        | ':' :: r2 =>
          match parseVal fuel r2 with
          | none => none
          | some (v, r3) =>
            match stripLeft r3 with
            | ',' :: r4 =>
              match parseObjItems fuel r4 with
              | some (kvs, r5) => some ((k, v) :: kvs, r5)
              | none => none
            | c :: r4 =>
              if c = rbrace then some ([(k, v)], r4) else none
            | [] => none
        | _ => none
    | _ => none

end

/-- Model of Python's `json.loads` on the tagger's JSON fragment:
parse one value and require only trailing whitespace after it. -/
def json_loads (s : String) : Option Json :=
  match parseVal (2 * s.data.length + 2) s.data with
  | some (v, rest) => if stripLeft rest = [] then some v else none
  | none => none

/-! ### Reply handling of `get_metadata_from_openrouter`

The Python code strips the service reply, extracts JSON from a
markdown fence (`re.search` for a ```json … ``` block, else a bare
triple-backtick wrap with an optional `json` language tag), and then
runs `json.loads`; any exception in the whole block yields `None`. -/

/-- The backtick character. -/
def backtick : Char := Char.ofNat 96

/-- The characters of a triple-backtick fence. -/
def fence3 : List Char := [backtick, backtick, backtick]

/-- The characters of the opening fence with `json` language tag. -/
def fenceJson : List Char := fence3 ++ ['j', 's', 'o', 'n']

/-- Split a character list at the first occurrence of `pat`, returning
the part before it and the part after it. -/
def takeUntilSub (pat : List Char) : List Char → Option (List Char × List Char)
  | [] => if pat = [] then some ([], []) else none
  | c :: rest =>
    if (c :: rest).take pat.length = pat then some ([], (c :: rest).drop pat.length)
    else
      match takeUntilSub pat rest with
      | some (pre, post) => some (c :: pre, post)
      | none => none

/-- Python `text.strip('\x60')`: drop backticks from both ends. -/
def stripTicks (l : List Char) : List Char :=
  ((l.dropWhile (· = backtick)).reverse.dropWhile (· = backtick)).reverse

/-- The `elif text.startswith('\x60\x60\x60') and text.endswith(...)`
branch: peel a bare triple-backtick wrap and an optional `json` tag. -/
def bareFence (text : List Char) : List Char :=
  if text.take 3 = fence3 ∧ text.reverse.take 3 = fence3 then
    let t := stripList (stripTicks text)
    if t.take 4 = ['j', 's', 'o', 'n'] then stripList (t.drop 4) else t
  else text

/-- The reply text actually handed to `json.loads`: the stripped reply
with a fenced code block removed.  The regex branch captures the
(whitespace-trimmed) text between the first ```json marker and the
first following ``` fence; if the regex fails to match, the bare-wrap
branch applies. -/
def extractReply (raw : String) : String :=
  let text := stripList raw.data
  match takeUntilSub fenceJson text with
  | some (_, afterTag) =>
    match takeUntilSub fence3 afterTag with
    | some (inner, _) => ⟨stripList inner⟩
    | none => ⟨bareFence text⟩
  | none => ⟨bareFence text⟩

/-- `get_metadata_from_openrouter`, seen from its caller: the service
call either raises (network/auth error — `Except.error`) or yields a
reply text.  The whole body sits in one `try/except` returning `None`
on any failure, so the model returns `none` exactly where the code
does.  `loads` injects the JSON decoder (`json.loads`); the decoded
value is returned as-is, with no check of its top-level shape. -/
def get_metadata_from_openrouter (loads : String → Option Json)
    (reply : Except Unit String) : Option Json :=
  match reply with
  | .error _ => none
  | .ok raw => loads (extractReply raw)

/-! ### `detect_actual_format` — the format sniffer -/

/-- `detect_actual_format`: classify a file by its leading bytes.  The
Python code reads the first 12 bytes and compares slices against fixed
magic signatures; slicing a short read simply yields a short list, so
truncated files fall through the comparisons exactly as modelled by
`List.take`/`List.drop`.  The surrounding `try/except` only concerns
I/O errors, which have no analogue here. -/
def detect_actual_format (bytes : List Nat) : String :=
  let header := bytes.take 12
  if header.take 4 = [0x66, 0x4C, 0x61, 0x43] then "flac"
  else if header.take 4 = [0x52, 0x49, 0x46, 0x46] ∧
      (header.drop 8).take 4 = [0x57, 0x41, 0x56, 0x45] then "wav"
  else if header.take 3 = [0x49, 0x44, 0x33] ∨ header.take 2 = [0xff, 0xfb] then "mp3"
  else if header.take 4 = [0x4f, 0x67, 0x67, 0x53] then "ogg"
  else if (header.drop 4).take 4 = [0x66, 0x74, 0x79, 0x70] ∨
      header.take 4 = [0x00, 0x00, 0x00, 0x18] ∨
      header.take 4 = [0x00, 0x00, 0x00, 0x1c] ∨
      header.take 4 = [0x00, 0x00, 0x00, 0x20] then "m4a"
  else "unknown"

/-! ### FLAC handles, validation, tag inspection -/

/-- A mutagen FLAC handle: its Vorbis-comment tag set, each tag a list
of values. -/
structure FLACAudio where
  tags : List (String × List String)
deriving DecidableEq

/-- Read a tag's value list from a handle (`audio[tag]` / `tag in audio`). -/
def getTag (a : FLACAudio) (k : String) : Option (List String) :=
  a.tags.lookup k

/-- `validate_flac_file`: the first four bytes must be the `fLaC`
signature, and mutagen must parse the whole structure.  `parse`
injects mutagen's structural parser (`FLAC(file)`), `none` standing
for a raised `mutagen` exception. -/
def validate_flac_file (parse : List Nat → Option FLACAudio) (bytes : List Nat) :
    Except String FLACAudio :=
  if bytes.take 4 ≠ [0x66, 0x4C, 0x61, 0x43] then .error "Not a FLAC file"
  else
    match parse bytes with
    | some a => .ok a
    | none => .error "mutagen failed to parse the file"

/-- The required-field table of `has_proper_metadata`: semantic field
name paired with its acceptable tag aliases, in the code's order. -/
def required_fields : List (String × List String) :=
  [("composer", ["COMPOSER"]),
   ("work", ["ALBUM", "WORK"]),
   ("title", ["TITLE"]),
   ("artist", ["ARTIST", "ALBUMARTIST"])]

/-- The per-alias test of `has_proper_metadata`:
`tag in audio and audio[tag] and audio[tag][0].strip()` — the tag is
present, its value list is non-empty, and its FIRST value is non-empty
after stripping. -/
def tagFirstNonWS (a : FLACAudio) (t : String) : Bool :=
  match getTag a t with
  | some (v :: _) => pyStrip v != ""
  | some [] => false
  | none => false

/-- `has_proper_metadata`: `(True, [])` when no semantic field is
missing, else `(False, missing)` in table order. -/
def has_proper_metadata (a : FLACAudio) : Bool × List String :=
  let missing := (required_fields.filter fun p => !(p.2.any (tagFirstNonWS a))).map Prod.fst
  (missing.isEmpty, missing)

/-- A snapshot value: mutagen tags are lists, and
`get_current_metadata` flattens singletons to a bare string. -/
inductive TagVal where
  | one (s : String) : TagVal
  | many (vs : List String) : TagVal
deriving DecidableEq

/-- The fixed field list read by `get_current_metadata`. -/
def snapshot_fields : List String :=
  ["COMPOSER", "ALBUM", "WORK", "TITLE", "ARTIST", "ALBUMARTIST",
   "ORCHESTRA", "ENSEMBLE", "PERFORMER", "DATE", "DISCNUMBER", "TRACKNUMBER"]

/-- `get_current_metadata`: for each known field that is present with a
non-empty value list, record the single value when there is exactly
one, else the whole list. -/
def get_current_metadata (a : FLACAudio) : List (String × TagVal) :=
  snapshot_fields.filterMap fun f =>
    match getTag a f with
    | some [] => none
    | some [v] => some (f, .one v)
    | some vs => some (f, .many vs)
    | none => none

/-! ### `apply_metadata_to_flac` — the tag writer -/

/-- The structured metadata record produced by the service (§3 of the
design): `none` models JSON `null`/absent, i.e. Python falsy `None`. -/
structure MetadataRecord where
  composer : Option String
  work : Option String
  movement : Option String
  performers : Option (List String)
  orchestra : Option String
  soloists : Option (List String)
  date : Option String
  disc : Option String
  track : Option String
deriving DecidableEq

/-- Python truthiness of `metadata.get(field)` for a string field. -/
def optStrTruthy : Option String → Bool
  | some s => s != ""
  | none => false

/-- Python truthiness of `metadata.get(field)` for a list field. -/
def optListTruthy : Option (List String) → Bool
  | some l => !l.isEmpty
  | none => false

/-- `audio[k] = v` on a mutagen handle: replace the tag's value list. -/
def setTag (a : FLACAudio) (k : String) (vs : List String) : FLACAudio :=
  ⟨(a.tags.filter fun p => p.1 != k) ++ [(k, vs)]⟩

/-- `', '.join(...)`. -/
def joinComma (l : List String) : String := String.intercalate ", " l

/-- `apply_metadata_to_flac`'s tag mapping: clear every tag, then set,
for each truthy record field, the code's fixed tag assignments.  The
final `audio.save()` persists the handle; the function returns the
resulting tag state. -/
def apply_metadata_to_flac (m : MetadataRecord) (a : FLACAudio) : FLACAudio :=
  let a0 : FLACAudio := ⟨a.tags.filter fun _ => false⟩
  let a1 := if optStrTruthy m.composer then setTag a0 "COMPOSER" [m.composer.getD ""] else a0
  let a2 := if optStrTruthy m.work then
      setTag (setTag a1 "ALBUM" [m.work.getD ""]) "WORK" [m.work.getD ""]
    else a1
  let a3 := if optStrTruthy m.movement then setTag a2 "TITLE" [m.movement.getD ""]
    else if optStrTruthy m.work then setTag a2 "TITLE" [m.work.getD ""]
    else a2
  let a4 := if optListTruthy m.performers then
      setTag (setTag a3 "ARTIST" [joinComma (m.performers.getD [])])
        "ALBUMARTIST" [joinComma (m.performers.getD [])]
    else a3
  let a5 := if optStrTruthy m.orchestra then
      setTag (setTag a4 "ORCHESTRA" [m.orchestra.getD ""]) "ENSEMBLE" [m.orchestra.getD ""]
    else a4
  let a6 := if optListTruthy m.soloists then setTag a5 "PERFORMER" (m.soloists.getD []) else a5
  let a7 := if optStrTruthy m.date then setTag a6 "DATE" [m.date.getD ""] else a6
  let a8 := if optStrTruthy m.disc then setTag a7 "DISCNUMBER" [m.disc.getD ""] else a7
  if optStrTruthy m.track then setTag a8 "TRACKNUMBER" [m.track.getD ""] else a8

/-! ### The audit-mode comparison block (the reconciler) -/

/-- The compared pairs, `(new record key, existing tag key)`. -/
def comparisons : List (String × String) :=
  [("composer", "COMPOSER"), ("work", "ALBUM"), ("movement", "TITLE")]

/-- `new_metadata.get(key)`: raises `AttributeError` when the decoded
reply is not a dict. -/
def dictGet (j : Json) (k : String) : Except Unit (Option Json) :=
  match j with
  | .obj fields => .ok (fields.lookup k)
  | _ => .error ()

/-- `new_metadata.get(key) or ""` followed by `.lower()`: a falsy
value becomes `""`, a truthy string is kept, and a truthy non-string
raises (`.lower()` on an int/list/…). -/
def orEmpty (v : Option Json) : Except Unit String :=
  match v with
  | none => .ok ""
  | some .null => .ok ""
  | some (.bool false) => .ok ""
  | some (.bool true) => .error ()
  | some (.num n) => if n = 0 then .ok "" else .error ()
  | some (.str s) => .ok s
  | some (.arr l) => if l.isEmpty then .ok "" else .error ()
  | some (.obj l) => if l.isEmpty then .ok "" else .error ()

/-- `current_metadata.get(old_key, "") or ""`, then first element if
the value is a list. -/
def oldOf (current : List (String × TagVal)) (k : String) : String :=
  match current.lookup k with
  | none => ""
  | some (.one s) => s
  | some (.many []) => ""
  | some (.many (v :: _)) => v

/-- The code's change test for one pair:
`new_val and new_val.lower().strip() != str(old_val).lower().strip()`. -/
def pairChanged (newv oldv : String) : Bool :=
  newv != "" && pyStrip (pyLower newv) != pyStrip (pyLower oldv)

/-- The comparison loop of `process_folder_audit` (lines 618–637):
walk `comparisons`, accumulate the changed flag and the change
summary, propagating the exceptions Python would raise. -/
def reconcileE (j : Json) (current : List (String × TagVal)) :
    Except Unit (Bool × List (String × String × String)) :=
  comparisons.foldlM
    (fun acc p => do
      let v ← dictGet j p.1
      let newv ← orEmpty v
      let oldv := oldOf current p.2
      if pairChanged newv oldv then
        pure (true, acc.2 ++ [(p.2, oldv, newv)])
      else
        pure acc)
    (false, [])

/-! ### Decimal numerals

`convert_to_flac` names backup files with `f"..._{counter}{suffix}"`;
settling the collision loop needs that distinct counters give distinct
numerals, i.e. injectivity of `Nat.repr`.  We prove it by evaluating
the digit list back to the number. -/

/-- Decimal digit characters of `n`, most significant first. -/
def digitsOf (n : Nat) : List Char :=
  if n < 10 then [Nat.digitChar n]
  else digitsOf (n / 10) ++ [Nat.digitChar (n % 10)]
decreasing_by exact Nat.div_lt_self (by omega) (by omega)


/-- Evaluation step that undoes `Nat.digitChar`. -/
def digitStep (a : Nat) (c : Char) : Nat := a * 10 + (c.toNat - 48)


/-! ### Backup naming and the collision loop of `convert_to_flac` -/

/-- The backup file name for collision counter `k`:
`f"{stem}_original_{fmt}{suffix}"` for the first try (`k = 0`), and
`f"{stem}_original_{fmt}_{k}{suffix}"` for the retries. -/
def backupName (stem fmt ext : String) : Nat → String
  | 0 => stem ++ "_original_" ++ fmt ++ ext
  | k + 1 => stem ++ "_original_" ++ fmt ++ "_" ++ Nat.repr (k + 1) ++ ext

/-- The `while backup_path.exists()` loop: starting from counter `k`,
return the first counter whose name is not taken, with enough fuel. -/
def findFresh (existing : List String) (f : Nat → String) : Nat → Nat → Nat
  | 0, k => k
  | fuel + 1, k => if f k ∈ existing then findFresh existing f fuel (k + 1) else k

/-- The collision counter chosen for a backup of `stem`/`fmt`/`ext`
given the names already in the backup directory. -/
def freshCounter (existing : List String) (stem fmt ext : String) : Nat :=
  findFresh existing (backupName stem fmt ext) (existing.length + 1) 0

/-! ### `convert_to_flac` -/

/-- The observable behaviour of the external processes
`shutil.which('ffmpeg')` and the ffmpeg invocation for one file:
availability, the exit code, and the produced temp-file bytes (if the
output file was produced at all). -/
structure ConvEnv where
  ffmpegAvailable : Bool
  returncode : Nat
  output : Option (List Nat)
deriving DecidableEq

/-- The slice of the filesystem `convert_to_flac` may touch: the bytes
at the source path and the backup directory's contents. -/
structure ConvState where
  source : List Nat
  backups : List (String × List Nat)
deriving DecidableEq

/-- Result of `convert_to_flac`: the returned handle (`None` on
failure) and the filesystem afterwards. -/
structure ConvResult where
  handle : Option FLACAudio
  state : ConvState
deriving DecidableEq

/-- `convert_to_flac`: check ffmpeg, run it to a temp path, and on
success move the original into the backup directory (collision-safe
name), move the temp file over the source, and re-validate. -/
def convert_to_flac (parse : List Nat → Option FLACAudio) (stem ext : String)
    (env : ConvEnv) (s : ConvState) : ConvResult :=
  if !env.ffmpegAvailable then ⟨none, s⟩
  else
    let fmt := detect_actual_format s.source
    if env.returncode ≠ 0 then ⟨none, s⟩
    else
      match env.output with
      | none => ⟨none, s⟩
      | some out =>
        let name := backupName stem fmt ext (freshCounter (s.backups.map Prod.fst) stem fmt ext)
        let s2 : ConvState := ⟨out, (name, s.source) :: s.backups⟩
        match validate_flac_file parse out with
        | .ok audio => ⟨some audio, s2⟩
        | .error _ => ⟨none, s2⟩

/-! ### The per-file pipeline of both modes

One `FileCase` carries a file's bytes and the outcomes of the external
interactions the pipeline may perform for it (ffmpeg, the service
reply, `audio.save()`, the interactive approver).  A step returns the
chosen counter bucket together with the file's bytes, the backup
directory, and whether a tag write was performed — or `Except.error`
for an uncaught Python exception that aborts the whole run. -/

structure FileCase where
  bytes : List Nat
  stem : String
  ext : String
  conv : ConvEnv
  reply : Except Unit String
  writeOk : Bool
  approve : Bool

/-- The counter buckets of `process_folder_normal`. -/
inductive NBucket where
  | processed : NBucket
  | skipped : NBucket
  | failed : NBucket
deriving DecidableEq

/-- Per-file outcome in normal mode. -/
structure NormOut where
  bucket : NBucket
  bytes : List Nat
  backups : List (String × List Nat)
  wroteTags : Bool
deriving DecidableEq

/-- `display_metadata_table(metadata)` iterates `metadata.items()`:
it succeeds on a dict and raises `AttributeError` otherwise. -/
def displayTable (j : Json) : Except Unit Unit :=
  match j with
  | .obj _ => .ok ()
  | _ => .error ()

/-- The tail of the normal-mode loop body once a valid handle exists:
metadata check, derivation, and the (dry-run-guarded) write. -/
def normalAfterValid (loads : String → Option Json) (dryRun : Bool) (c : FileCase)
    (audio : FLACAudio) (s : ConvState) : Except Unit NormOut :=
  if (has_proper_metadata audio).1 then .ok ⟨.skipped, s.source, s.backups, false⟩
  else
    match get_metadata_from_openrouter loads c.reply with
    | some j =>
      if jsonTruthy j then
        match displayTable j with
        | .error e => .error e
        | .ok _ =>
          if !dryRun then
            if c.writeOk then .ok ⟨.processed, s.source, s.backups, true⟩
            else .ok ⟨.failed, s.source, s.backups, true⟩
          else .ok ⟨.processed, s.source, s.backups, false⟩
      else .ok ⟨.failed, s.source, s.backups, false⟩
    | none => .ok ⟨.failed, s.source, s.backups, false⟩

/-- One iteration of the `process_folder_normal` loop (lines 472–525):
validate, convert when invalid, then hand over to the metadata part. -/
def normalStep (parse : List Nat → Option FLACAudio) (loads : String → Option Json)
    (dryRun : Bool) (c : FileCase) (backups : List (String × List Nat)) :
    Except Unit NormOut :=
  match validate_flac_file parse c.bytes with
  | .error _ =>
    let r := convert_to_flac parse c.stem c.ext c.conv ⟨c.bytes, backups⟩
    match r.handle with
    | none => .ok ⟨.failed, r.state.source, r.state.backups, false⟩
    | some audio => normalAfterValid loads dryRun c audio r.state
  | .ok audio => normalAfterValid loads dryRun c audio ⟨c.bytes, backups⟩

/-- The counters of `process_folder_normal`. -/
structure NormCounts where
  processed : Nat
  skipped : Nat
  failed : Nat
deriving DecidableEq

/-- Increment the chosen normal-mode bucket. -/
def nbump : NBucket → NormCounts → NormCounts
  | .processed, c => ⟨c.processed + 1, c.skipped, c.failed⟩
  | .skipped, c => ⟨c.processed, c.skipped + 1, c.failed⟩
  | .failed, c => ⟨c.processed, c.skipped, c.failed + 1⟩

/-- `process_folder_normal` over an enumerated file list, threading
the shared backup directory; an uncaught exception aborts the run. -/
def process_folder_normal (parse : List Nat → Option FLACAudio)
    (loads : String → Option Json) (dryRun : Bool) :
    List FileCase → List (String × List Nat) → Except Unit NormCounts
  | [], _ => .ok ⟨0, 0, 0⟩
  | c :: cs, backups =>
    match normalStep parse loads dryRun c backups with
    | .error e => .error e
    | .ok out =>
      match process_folder_normal parse loads dryRun cs out.backups with
      | .error e => .error e
      | .ok counts => .ok (nbump out.bucket counts)

/-- The counter buckets of `process_folder_audit`. -/
inductive ABucket where
  | verified : ABucket
  | updated : ABucket
  | skipped : ABucket
  | failed : ABucket
deriving DecidableEq

/-- Per-file outcome in audit mode. -/
structure AuditOut where
  bucket : ABucket
  bytes : List Nat
  backups : List (String × List Nat)
  wroteTags : Bool
deriving DecidableEq

/-- The tail of the audit loop body once a valid handle exists:
snapshot, derivation, comparison, approval, and the guarded write. -/
def auditAfterValid (loads : String → Option Json) (dryRun : Bool) (c : FileCase)
    (audio : FLACAudio) (s : ConvState) : Except Unit AuditOut :=
  let current := get_current_metadata audio
  match get_metadata_from_openrouter loads c.reply with
  | some j =>
    if jsonTruthy j then
      match reconcileE j current with
      | .error e => .error e
      | .ok rec =>
        if rec.1 then
          if !dryRun then
            if c.approve then
              if c.writeOk then .ok ⟨.updated, s.source, s.backups, true⟩
              else .ok ⟨.failed, s.source, s.backups, true⟩
            else .ok ⟨.skipped, s.source, s.backups, false⟩
          else .ok ⟨.updated, s.source, s.backups, false⟩
        else .ok ⟨.verified, s.source, s.backups, false⟩
    else .ok ⟨.failed, s.source, s.backups, false⟩
  | none => .ok ⟨.failed, s.source, s.backups, false⟩

/-- One iteration of the `process_folder_audit` loop (lines 581–665). -/
def auditStep (parse : List Nat → Option FLACAudio) (loads : String → Option Json)
    (dryRun : Bool) (c : FileCase) (backups : List (String × List Nat)) :
    Except Unit AuditOut :=
  match validate_flac_file parse c.bytes with
  | .error _ =>
    let r := convert_to_flac parse c.stem c.ext c.conv ⟨c.bytes, backups⟩
    match r.handle with
    | none => .ok ⟨.failed, r.state.source, r.state.backups, false⟩
    | some audio => auditAfterValid loads dryRun c audio r.state
  | .ok audio => auditAfterValid loads dryRun c audio ⟨c.bytes, backups⟩

/-- The counters of `process_folder_audit`. -/
structure AuditCounts where
  verified : Nat
  updated : Nat
  skipped : Nat
  failed : Nat
deriving DecidableEq

/-- Increment the chosen audit-mode bucket. -/
def abump : ABucket → AuditCounts → AuditCounts
  | .verified, c => ⟨c.verified + 1, c.updated, c.skipped, c.failed⟩
  | .updated, c => ⟨c.verified, c.updated + 1, c.skipped, c.failed⟩
  | .skipped, c => ⟨c.verified, c.updated, c.skipped + 1, c.failed⟩
  | .failed, c => ⟨c.verified, c.updated, c.skipped, c.failed + 1⟩

/-- `process_folder_audit` over an enumerated file list. -/
def process_folder_audit (parse : List Nat → Option FLACAudio)
    (loads : String → Option Json) (dryRun : Bool) :
    List FileCase → List (String × List Nat) → Except Unit AuditCounts
  | [], _ => .ok ⟨0, 0, 0, 0⟩
  | c :: cs, backups =>
    match auditStep parse loads dryRun c backups with
    | .error e => .error e
    | .ok out =>
      match process_folder_audit parse loads dryRun cs out.backups with
      | .error e => .error e
      | .ok counts => .ok (abump out.bucket counts)

/-! ### Spec-side definitions

These follow the wording of the design document (`spec.md`) and of the
claims, to be compared with the code-derived definitions above. -/

/-- Spec §4.1: the `fLaC` signature. -/
abbrev sigFlac (b : List Nat) : Prop := b.take 4 = [0x66, 0x4C, 0x61, 0x43]

/-- Spec §4.1: `RIFF`…`WAVE`. -/
abbrev sigWav (b : List Nat) : Prop :=
  b.take 4 = [0x52, 0x49, 0x46, 0x46] ∧ (b.drop 8).take 4 = [0x57, 0x41, 0x56, 0x45]

/-- Spec §4.1: `ID3` or the MPEG sync bytes `0xFFFB`. -/
abbrev sigMp3 (b : List Nat) : Prop :=
  b.take 3 = [0x49, 0x44, 0x33] ∨ b.take 2 = [0xff, 0xfb]

/-- Spec §4.1: `OggS`. -/
abbrev sigOgg (b : List Nat) : Prop := b.take 4 = [0x4f, 0x67, 0x67, 0x53]

/-- Spec §4.1: an `ftyp` marker at byte offset 4, or one of the listed
big-endian box-size prefixes. -/
abbrev sigM4a (b : List Nat) : Prop :=
  (b.drop 4).take 4 = [0x66, 0x74, 0x79, 0x70] ∨
    b.take 4 = [0x00, 0x00, 0x00, 0x18] ∨
    b.take 4 = [0x00, 0x00, 0x00, 0x1c] ∨
    b.take 4 = [0x00, 0x00, 0x00, 0x20]

/-- The spec's magic-byte table, with the code's priority order. -/
def classifySpec (b : List Nat) : String :=
  if sigFlac b then "flac"
  else if sigWav b then "wav"
  else if sigMp3 b then "mp3"
  else if sigOgg b then "ogg"
  else if sigM4a b then "m4a"
  else "unknown"

/-- Spec §4.6: the normalised form of a compared value — trimmed, then
case-folded. -/
def normSpec (s : String) : String := pyLower (pyStrip s)

/-- Spec §4.6: a pair counts as changed iff the new value is non-empty
and differs from the old value under the normalised comparison. -/
def pairChangedSpec (newv oldv : String) : Bool :=
  newv != "" && normSpec newv != normSpec oldv

/-- A record field as the JSON value the service would send for it
(`null` for an uncertain field). -/
def optJson : Option String → Json
  | some s => .str s
  | none => .null

/-- The decoded service reply carrying the three compared fields of a
`MetadataRecord`. -/
def mkRecordJson (c w mv : Option String) : Json :=
  .obj [("composer", optJson c), ("work", optJson w), ("movement", optJson mv)]

/-- Spec §4.6: `changed` is true iff at least one compared pair has a
non-empty new value differing under the normalised comparison. -/
def specChanged (c w mv : Option String) (current : List (String × TagVal)) : Bool :=
  pairChangedSpec (c.getD "") (oldOf current "COMPOSER") ||
    pairChangedSpec (w.getD "") (oldOf current "ALBUM") ||
    pairChangedSpec (mv.getD "") (oldOf current "TITLE")

/-- Spec §4.4 (amended to the code's behaviour): an alias tag counts
for a semantic field iff it is present with a non-empty value list
whose first value is non-empty after stripping. -/
def aliasFirstProper (a : FLACAudio) (t : String) : Prop :=
  ∃ v vs, getTag a t = some (v :: vs) ∧ pyStrip v ≠ ""

/-! ### Concrete fixtures for witnesses and counterexamples -/

/-- A byte string carrying the `fLaC` signature. -/
def goodFlacBytes : List Nat := [0x66, 0x4C, 0x61, 0x43, 9]

/-- A handle carrying all four required semantic fields. -/
def demoFullTags : FLACAudio :=
  ⟨[("COMPOSER", ["C"]), ("ALBUM", ["W"]), ("TITLE", ["T"]), ("ARTIST", ["A"])]⟩

/-- Demo mutagen behaviour: parses exactly `goodFlacBytes`, yielding
the complete handle. -/
def demoParse : List Nat → Option FLACAudio :=
  fun b => if b = goodFlacBytes then some demoFullTags else none

/-- Demo mutagen behaviour: parses exactly `goodFlacBytes`, yielding
an empty handle (no tags). -/
def demoParseEmpty : List Nat → Option FLACAudio :=
  fun b => if b = goodFlacBytes then some (⟨[]⟩ : FLACAudio) else none

/-- Demo mutagen behaviour that rejects every byte string. -/
def rejectParse : List Nat → Option FLACAudio := fun _ => none

/-- A dry-run scenario: a non-FLAC file (bytes `[0,1,2]`) for which
ffmpeg is available and produces a valid FLAC output. -/
def c1Case : FileCase :=
  ⟨[0, 1, 2], "song", ".flac", ⟨true, 0, some goodFlacBytes⟩, .ok "", true, true⟩

/-- A valid but untagged file whose service reply decodes to the JSON
array `[7, 8]` — truthy but not an object. -/
def c9Case : FileCase :=
  ⟨goodFlacBytes, "song", ".flac", ⟨true, 0, none⟩, .ok "[7, 8]", true, true⟩

/-- A derivation outcome that cannot crash the normal-mode loop: no
reply, a falsy value, or a JSON object (anything else blows up in
`display_metadata_table`). -/
def normalSafeMeta : Option Json → Prop
  | none => True
  | some j => jsonTruthy j = true → ∃ fields, j = Json.obj fields

/-- A derivation outcome that cannot crash the audit loop: no reply, a
falsy value, or a JSON object whose compared fields are strings or
falsy (anything else blows up in the comparison loop). -/
def auditSafeMeta : Option Json → Prop
  | none => True
  | some j => jsonTruthy j = true →
      ∃ fields, j = Json.obj fields ∧
        ∀ key ∈ (["composer", "work", "movement"] : List String),
          ∃ sres, orEmpty (fields.lookup key) = .ok sres

/-- A valid but untagged file whose service reply is not JSON at all. -/
def c10Case : FileCase :=
  ⟨goodFlacBytes, "song", ".flac", ⟨true, 0, none⟩, .ok "nonsense", true, true⟩

/-- A handle whose ALBUM tag holds an empty first value followed by a
non-empty one. -/
def c7Audio : FLACAudio :=
  ⟨[("COMPOSER", ["C"]), ("ALBUM", ["", "X"]), ("TITLE", ["T"]), ("ARTIST", ["A"])]⟩

/-- A full metadata record whose soloist list has exactly one entry. -/
def c6Record : MetadataRecord :=
  ⟨some "Bach", some "W", some "M", some ["P1", "P2"], some "O", some ["S"],
    some "1999", some "1", some "2"⟩

/-! ### Helper lemmas: decimal numerals -/

theorem digitsOf_ne_nil (n : Nat) : digitsOf n ≠ [] := by
  rw [digitsOf]
  by_cases h : n < 10 <;> simp [h]

theorem toDigitsCore_eq_digitsOf :
    ∀ (fuel n : Nat) (ds : List Char), n < fuel →
      Nat.toDigitsCore 10 fuel n ds = digitsOf n ++ ds := by
  intro fuel
  induction fuel with
  | zero => intro n ds h; omega
  | succ fuel ih =>
    intro n ds h
    rw [Nat.toDigitsCore]
    by_cases h0 : n / 10 = 0
    · have hn : n < 10 := by omega
      rw [digitsOf]
      simp [h0, hn, Nat.mod_eq_of_lt hn]
    · have hn : ¬ n < 10 := by omega
      have hlt : n / 10 < fuel := by
        have := Nat.div_lt_self (by omega : 0 < n) (by omega : 1 < 10)
        omega
      simp only [h0, if_false]
      rw [ih (n / 10) _ hlt]
      conv_rhs => rw [digitsOf]
      rw [if_neg hn]
      simp

theorem repr_data_eq_digitsOf (n : Nat) : (Nat.repr n).data = digitsOf n := by
  show (Nat.toDigits 10 n).asString.data = digitsOf n
  rw [Nat.toDigits, toDigitsCore_eq_digitsOf (n + 1) n [] (by omega)]
  rw [List.append_nil]
  rfl

theorem digitChar_toNat_sub (d : Nat) (h : d < 10) : (Nat.digitChar d).toNat - 48 = d := by
  interval_cases d <;> rfl

theorem foldl_digitStep_digitsOf (n : Nat) :
    ∀ a : Nat, List.foldl digitStep a (digitsOf n) = a * 10 ^ (digitsOf n).length + n := by
  induction n using Nat.strong_induction_on with
  | _ n ih =>
    intro a
    by_cases h : n < 10
    · rw [digitsOf]
      simp [h, digitStep, digitChar_toNat_sub n h]
    · have hpos : 0 < n := by omega
      have hdiv : n / 10 < n := Nat.div_lt_self hpos (by omega)
      rw [digitsOf]
      simp only [h, if_false]
      rw [List.foldl_append, ih (n / 10) hdiv a]
      simp only [List.foldl, digitStep, List.length_append, List.length_singleton]
      rw [digitChar_toNat_sub (n % 10) (Nat.mod_lt n (by omega))]
      have := Nat.div_add_mod n 10
      ring_nf
      omega

theorem digitsOf_injective : Function.Injective digitsOf := by
  intro m n h
  have hm := foldl_digitStep_digitsOf m 0
  have hn := foldl_digitStep_digitsOf n 0
  rw [h] at hm
  rw [hn] at hm
  simp at hm
  omega

theorem nat_repr_injective : Function.Injective Nat.repr := by
  intro m n h
  apply digitsOf_injective
  rw [← repr_data_eq_digitsOf, ← repr_data_eq_digitsOf, h]

/-! ### Helper lemmas: characters and normalisation -/

theorem char_toNat_inj {c d : Char} (h : c.toNat = d.toNat) : c = d := by
  have h2 := congrArg Char.ofNat h
  rwa [Char.ofNat_toNat, Char.ofNat_toNat] at h2

theorem toNat_ofNat_lt {n : Nat} (h : n < 55296) : (Char.ofNat n).toNat = n := by
  rw [Char.ofNat, dif_pos (Or.inl h)]
  rfl

theorem decide_char_eq (c d : Char) : (decide (c = d)) = (decide (c.toNat = d.toNat)) := by
  by_cases h : c = d
  · subst h; simp
  · have hn : c.toNat ≠ d.toNat := fun hh => h (char_toNat_inj hh)
    simp [h, hn]

theorem isSpace_toNat (c : Char) :
    isSpace c = (decide (c.toNat = 32) || decide (c.toNat = 9) || decide (c.toNat = 10) ||
      decide (c.toNat = 13) || decide (c.toNat = 11) || decide (c.toNat = 12)) := by
  unfold isSpace
  rw [decide_char_eq c ' ', decide_char_eq c '\t', decide_char_eq c '\n',
    decide_char_eq c '\r', decide_char_eq c (Char.ofNat 11), decide_char_eq c (Char.ofNat 12)]
  rfl

theorem isSpace_asciiLower (c : Char) : isSpace (asciiLower c) = isSpace c := by
  unfold asciiLower
  by_cases h : 'A' ≤ c ∧ c ≤ 'Z'
  · have h1 : 65 ≤ c.toNat := h.1
    have h2 : c.toNat ≤ 90 := h.2
    rw [if_pos h, isSpace_toNat, isSpace_toNat, toNat_ofNat_lt (by omega)]
    have hl : (decide (c.toNat + 32 = 32) || decide (c.toNat + 32 = 9) ||
        decide (c.toNat + 32 = 10) || decide (c.toNat + 32 = 13) ||
        decide (c.toNat + 32 = 11) || decide (c.toNat + 32 = 12)) = false := by
      simp only [Bool.or_eq_false_iff, decide_eq_false_iff_not]
      omega
    have hr : (decide (c.toNat = 32) || decide (c.toNat = 9) || decide (c.toNat = 10) ||
        decide (c.toNat = 13) || decide (c.toNat = 11) || decide (c.toNat = 12)) = false := by
      simp only [Bool.or_eq_false_iff, decide_eq_false_iff_not]
      omega
    rw [hl, hr]
  · rw [if_neg h]

theorem dropWhile_map_asciiLower (l : List Char) :
    (l.map asciiLower).dropWhile isSpace = (l.dropWhile isSpace).map asciiLower := by
  induction l with
  | nil => rfl
  | cons c rest ih =>
    simp only [List.map_cons, List.dropWhile_cons, isSpace_asciiLower]
    by_cases h : isSpace c
    · simp [h, ih]
    · simp [h]

theorem stripList_map_asciiLower (l : List Char) :
    stripList (l.map asciiLower) = (stripList l).map asciiLower := by
  unfold stripList
  rw [dropWhile_map_asciiLower, ← List.map_reverse, dropWhile_map_asciiLower, ← List.map_reverse]

theorem pyStrip_pyLower_comm (s : String) : pyStrip (pyLower s) = pyLower (pyStrip s) := by
  show String.mk (stripList (s.data.map asciiLower)) = String.mk ((stripList s.data).map asciiLower)
  exact congrArg String.mk (stripList_map_asciiLower s.data)

theorem pairChanged_eq_spec (n o : String) : pairChanged n o = pairChangedSpec n o := by
  unfold pairChanged pairChangedSpec normSpec
  rw [pyStrip_pyLower_comm, pyStrip_pyLower_comm]

/-! ### Helper lemmas: the format sniffer -/

theorem detect_eq_classifySpec (b : List Nat) :
    detect_actual_format b = classifySpec b := by
  have h4 : (b.take 12).take 4 = b.take 4 := by
    simpa using List.take_take 4 12 b
  have h3 : (b.take 12).take 3 = b.take 3 := by
    simpa using List.take_take 3 12 b
  have h2 : (b.take 12).take 2 = b.take 2 := by
    simpa using List.take_take 2 12 b
  have hd8 : (b.take 12).drop 8 = (b.drop 8).take 4 := by
    simpa using (List.take_drop 8 4 b).symm
  have hd4 : (b.take 12).drop 4 = (b.drop 4).take 8 := by
    simpa using (List.take_drop 4 8 b).symm
  unfold detect_actual_format classifySpec
  simp only [h4, h3, h2, hd8, hd4, List.take_take]
  norm_num

theorem detect_unknown_iff (b : List Nat) :
    detect_actual_format b = "unknown" ↔
      ¬(sigFlac b ∨ sigWav b ∨ sigMp3 b ∨ sigOgg b ∨ sigM4a b) := by
  rw [detect_eq_classifySpec]
  unfold classifySpec
  split_ifs with h1 h2 h3 h4 h5 <;> simp_all

/-! ### Helper lemmas: fence extraction -/

theorem takeUntilSub_cons (pat : List Char) (c : Char) (l : List Char) :
    takeUntilSub pat (c :: l) =
      if (c :: l).take pat.length = pat then some ([], (c :: l).drop pat.length)
      else
        match takeUntilSub pat l with
        | some (pre, post) => some (c :: pre, post)
        | none => none := rfl

theorem takeUntilSub_append (pat rest : List Char) (hne : pat ≠ []) :
    takeUntilSub pat (pat ++ rest) = some ([], rest) := by
  cases pat with
  | nil => exact absurd rfl hne
  | cons p ps =>
    rw [List.cons_append, takeUntilSub_cons, ← List.cons_append, if_pos (List.take_left _ _),
      List.drop_left]

theorem takeUntilSub_before_fence (inner : List Char) (h : backtick ∉ inner) :
    takeUntilSub fence3 (inner ++ fence3) = some (inner, []) := by
  induction inner with
  | nil => simpa using takeUntilSub_append fence3 [] (by decide)
  | cons c rest ih =>
    have hc : c ≠ backtick := fun he => h (by simp [he])
    have hrest : backtick ∉ rest := fun hm => h (List.mem_cons_of_mem _ hm)
    rw [List.cons_append, takeUntilSub_cons, if_neg, ih hrest]
    intro heq
    have h3 : (c :: (rest ++ fence3)).take fence3.length = c :: (rest ++ fence3).take 2 := rfl
    rw [h3] at heq
    exact hc (List.cons_eq_cons.mp heq).1

theorem takeUntilSub_none_of_not_mem {c : Char} {pat : List Char} (hc : c ∈ pat) :
    ∀ l : List Char, c ∉ l → takeUntilSub pat l = none := by
  intro l
  induction l with
  | nil =>
    intro _
    have hpat : pat ≠ [] := by intro hp; subst hp; simp at hc
    simp [takeUntilSub, hpat]
  | cons d rest ih =>
    intro hl
    have hd : c ∉ rest := fun hm => hl (List.mem_cons_of_mem _ hm)
    rw [takeUntilSub_cons, if_neg, ih hd]
    intro heq
    exact hl (List.take_subset _ _ (heq ▸ hc))

theorem dropWhile_subset_self (p : Char → Bool) (l : List Char) : l.dropWhile p ⊆ l := by
  induction l with
  | nil => simp
  | cons d rest ih =>
    rw [List.dropWhile_cons]
    by_cases h : p d
    · simp only [h, if_true]
      exact fun x hx => List.mem_cons_of_mem _ (ih hx)
    · simp [h]

theorem stripList_subset (l : List Char) : stripList l ⊆ l := by
  intro x hx
  unfold stripList at hx
  rw [List.mem_reverse] at hx
  have h1 := dropWhile_subset_self isSpace _ hx
  rw [List.mem_reverse] at h1
  exact dropWhile_subset_self isSpace l h1

theorem stripList_ends (x y : Char) (l : List Char) (hx : isSpace x = false)
    (hy : isSpace y = false) : stripList (x :: (l ++ [y])) = x :: (l ++ [y]) := by
  unfold stripList
  rw [List.dropWhile_cons_of_neg (by simp [hx])]
  have hrev : (x :: (l ++ [y])).reverse = y :: (l.reverse ++ [x]) := by
    simp
  rw [hrev, List.dropWhile_cons_of_neg (by simp [hy]), ← hrev, List.reverse_reverse]

theorem dropWhile_backtick_fence3_append (hd : Char) (tl : List Char) (hb : hd ≠ backtick) :
    (fence3 ++ (hd :: tl)).dropWhile (· = backtick) = hd :: tl := by
  simp [fence3, List.dropWhile_cons, hb]

theorem stripTicks_fenced (inner : List Char) (hne : inner ≠ []) (hb : backtick ∉ inner) :
    stripTicks (fence3 ++ (inner ++ fence3)) = inner := by
  obtain ⟨hd, tl, rfl⟩ := List.exists_cons_of_ne_nil hne
  have hhd : hd ≠ backtick := fun he => hb (by simp [he])
  unfold stripTicks
  rw [show (hd :: tl) ++ fence3 = hd :: (tl ++ fence3) from rfl]
  rw [dropWhile_backtick_fence3_append hd (tl ++ fence3) hhd]
  have hrev : (hd :: (tl ++ fence3)).reverse = fence3 ++ (hd :: tl).reverse := by
    simp [fence3]
  rw [hrev]
  rcases hrev2 : (hd :: tl).reverse with _ | ⟨hd2, tl2⟩
  · simp at hrev2
  · have hhd2 : hd2 ≠ backtick := by
      intro he
      apply hb
      have hmem : hd2 ∈ (hd :: tl).reverse := by rw [hrev2]; exact List.mem_cons_self _ _
      rw [List.mem_reverse] at hmem
      rwa [he] at hmem
    rw [dropWhile_backtick_fence3_append hd2 tl2 hhd2, ← hrev2, List.reverse_reverse]

theorem extractReply_fenced (inner : List Char) (hb : backtick ∉ inner) :
    extractReply ⟨fenceJson ++ inner ++ fence3⟩ = ⟨stripList inner⟩ := by
  have hstrip : stripList (fenceJson ++ inner ++ fence3) = fenceJson ++ inner ++ fence3 := by
    have hshape : fenceJson ++ inner ++ fence3 =
        backtick ::
          (([backtick, backtick, 'j', 's', 'o', 'n'] ++ inner ++ [backtick, backtick]) ++
            [backtick]) := by
      simp [fenceJson, fence3]
    rw [hshape]
    exact stripList_ends _ _ _ (by decide) (by decide)
  unfold extractReply
  have hdata : (String.mk (fenceJson ++ inner ++ fence3)).data = fenceJson ++ inner ++ fence3 :=
    rfl
  rw [hdata, hstrip, List.append_assoc]
  simp only [takeUntilSub_append fenceJson (inner ++ fence3) (by decide),
    takeUntilSub_before_fence inner hb]

theorem extractReply_bare (inner : List Char) (hne : inner ≠ []) (hb : backtick ∉ inner)
    (hj : 'j' ∉ inner) :
    extractReply ⟨fence3 ++ inner ++ fence3⟩ = ⟨stripList inner⟩ := by
  have hstrip : stripList (fence3 ++ inner ++ fence3) = fence3 ++ inner ++ fence3 := by
    have hshape : fence3 ++ inner ++ fence3 =
        backtick :: (([backtick, backtick] ++ inner ++ [backtick, backtick]) ++ [backtick]) := by
      simp [fence3]
    rw [hshape]
    exact stripList_ends _ _ _ (by decide) (by decide)
  have hnoj : 'j' ∉ fence3 ++ inner ++ fence3 := by
    intro hmem
    rcases List.mem_append.mp hmem with hmem2 | hmem3
    · rcases List.mem_append.mp hmem2 with hmem4 | hmem5
      · exact absurd hmem4 (by decide)
      · exact hj hmem5
    · exact absurd hmem3 (by decide)
  have hfj : takeUntilSub fenceJson (fence3 ++ inner ++ fence3) = none :=
    takeUntilSub_none_of_not_mem (by decide) _ hnoj
  have htake3 : (fence3 ++ inner ++ fence3).take 3 = fence3 := by
    rw [List.append_assoc]
    exact List.take_left' rfl
  have hrevtake3 : (fence3 ++ inner ++ fence3).reverse.take 3 = fence3 := by
    rw [List.reverse_append]
    rw [show fence3.reverse = fence3 from by decide]
    exact List.take_left' rfl
  have hnotag : ¬ ((stripList inner).take 4 = ['j', 's', 'o', 'n']) := by
    intro h
    apply hj
    apply stripList_subset inner
    apply List.take_subset 4 (stripList inner)
    rw [h]
    decide
  unfold extractReply
  have hdata : (String.mk (fence3 ++ inner ++ fence3)).data = fence3 ++ inner ++ fence3 := rfl
  rw [hdata, hstrip]
  simp only [hfj]
  unfold bareFence
  rw [if_pos ⟨htake3, hrevtake3⟩, List.append_assoc, stripTicks_fenced inner hne hb,
    if_neg hnotag]

/-! ### Helper lemmas: reconciler, tag inspection, collision-safe naming, pipeline -/

theorem reconcileE_mkRecord (c w mv : Option String) (current : List (String × TagVal)) :
    (reconcileE (mkRecordJson c w mv) current).map Prod.fst =
      .ok (specChanged c w mv current) := by
  cases c <;> cases w <;> cases mv <;>
    simp [reconcileE, comparisons, mkRecordJson, optJson, dictGet, orEmpty, specChanged,
      pairChanged_eq_spec, List.foldlM, List.lookup, Option.getD, Except.map, bind, Except.bind,
      pure, Except.pure] <;>
    split_ifs <;> simp_all

theorem tagFirstNonWS_iff (a : FLACAudio) (t : String) :
    tagFirstNonWS a t = true ↔ aliasFirstProper a t := by
  unfold tagFirstNonWS aliasFirstProper
  rcases h : getTag a t with _ | vs
  · simp
  · cases vs with
    | nil => simp
    | cons v rest =>
      simp only [bne_iff_ne, ne_eq]
      constructor
      · intro h1
        exact ⟨v, rest, rfl, h1⟩
      · rintro ⟨v2, vs2, heq, hne⟩
        injection heq with heq2
        injection heq2 with heq3 heq4
        rw [heq3]
        exact hne


theorem findFresh_spec (existing : List String) (f : Nat → String) :
    ∀ (fuel k : Nat), (∃ j, j < fuel ∧ f (k + j) ∉ existing) →
      f (findFresh existing f fuel k) ∉ existing ∧ k ≤ findFresh existing f fuel k ∧
        ∀ i, k ≤ i → i < findFresh existing f fuel k → f i ∈ existing := by
  intro fuel
  induction fuel with
  | zero =>
    rintro k ⟨j, hj, _⟩
    omega
  | succ fuel ih =>
    rintro k ⟨j, hj, hfresh⟩
    by_cases hk : f k ∈ existing
    · have hj2 : ∃ j2, j2 < fuel ∧ f (k + 1 + j2) ∉ existing := by
        cases j with
        | zero => exact absurd (by simpa using hk) hfresh
        | succ j2 =>
          refine ⟨j2, by omega, ?_⟩
          rw [show k + 1 + j2 = k + (j2 + 1) by omega]
          exact hfresh
      obtain ⟨h1, h2, h3⟩ := ih (k + 1) hj2
      simp only [findFresh, if_pos hk]
      refine ⟨h1, by omega, ?_⟩
      intro i hki hlt
      rcases Nat.eq_or_lt_of_le hki with heq | hlt2
      · rwa [heq] at hk
      · exact h3 i hlt2 hlt
    · simp only [findFresh, if_neg hk]
      exact ⟨hk, Nat.le_refl k, fun i h1 h2 => absurd h2 (by omega)⟩

theorem exists_fresh (existing : List String) (f : Nat → String)
    (hf : Function.Injective f) :
    ∃ j, j < existing.length + 1 ∧ f (0 + j) ∉ existing := by
  by_contra hcon
  push_neg at hcon
  have hsub : ((List.range (existing.length + 1)).map f).toFinset ⊆ existing.toFinset := by
    intro x hx
    rw [List.mem_toFinset] at hx ⊢
    rw [List.mem_map] at hx
    obtain ⟨j, hj, rfl⟩ := hx
    rw [List.mem_range] at hj
    simpa using hcon j hj
  have h1 : ((List.range (existing.length + 1)).map f).toFinset.card = existing.length + 1 := by
    rw [List.toFinset_card_of_nodup ((List.nodup_range _).map hf)]
    simp
  have h2 := Finset.card_le_card hsub
  have h3 := existing.toFinset_card_le
  omega

theorem repr_length_pos (n : Nat) : 1 ≤ (Nat.repr n).length := by
  show 1 ≤ (Nat.repr n).data.length
  rw [repr_data_eq_digitsOf]
  exact List.length_pos.mpr (digitsOf_ne_nil n)

theorem backupName_injective (stem fmt ext : String) :
    Function.Injective (backupName stem fmt ext) := by
  intro k1 k2 h
  have hlen0 : ∀ m : Nat,
      (backupName stem fmt ext 0).data.length <
        (backupName stem fmt ext (m + 1)).data.length := by
    intro m
    have h10 : ("_original_" : String).data.length = 10 := rfl
    have hu : ("_" : String).data.length = 1 := rfl
    have hrep : 1 ≤ (Nat.repr (m + 1)).data.length := repr_length_pos (m + 1)
    simp only [backupName, String.data_append, List.length_append, h10, hu]
    omega
  match k1, k2 with
  | 0, 0 => rfl
  | 0, m + 1 =>
    exfalso
    have hL := congrArg (fun s : String => s.data.length) h
    simp only [] at hL
    have := hlen0 m
    omega
  | m + 1, 0 =>
    exfalso
    have hL := congrArg (fun s : String => s.data.length) h
    simp only [] at hL
    have := hlen0 m
    omega
  | m + 1, n + 1 =>
    have hd := congrArg String.data h
    simp only [backupName, String.data_append] at hd
    have hd2 := List.append_cancel_right hd
    have hd3 := List.append_cancel_left hd2
    have hrepr : Nat.repr (m + 1) = Nat.repr (n + 1) := congrArg String.mk hd3
    have := nat_repr_injective hrepr
    omega

theorem freshCounter_spec (existing : List String) (stem fmt ext : String) :
    backupName stem fmt ext (freshCounter existing stem fmt ext) ∉ existing ∧
      ∀ i < freshCounter existing stem fmt ext, backupName stem fmt ext i ∈ existing := by
  have hex := exists_fresh existing (backupName stem fmt ext) (backupName_injective stem fmt ext)
  obtain ⟨h1, _, h3⟩ :=
    findFresh_spec existing (backupName stem fmt ext) (existing.length + 1) 0 hex
  exact ⟨h1, fun i hi => h3 i (Nat.zero_le i) hi⟩


theorem normalAfterValid_ok (loads : String → Option Json) (dryRun : Bool) (c : FileCase)
    (audio : FLACAudio) (s : ConvState)
    (h : normalSafeMeta (get_metadata_from_openrouter loads c.reply)) :
    ∃ out, normalAfterValid loads dryRun c audio s = .ok out := by
  unfold normalAfterValid
  by_cases h1 : (has_proper_metadata audio).1 = true
  · simp [h1]
  · have h1b : (has_proper_metadata audio).1 = false := by simpa using h1
    rcases hm : get_metadata_from_openrouter loads c.reply with _ | j
    · simp [h1b, hm]
    · rw [hm] at h
      by_cases ht : jsonTruthy j = true
      · obtain ⟨fields, rfl⟩ := h ht
        simp only [h1b, hm, ht, displayTable, Bool.false_eq_true, if_false]
        cases dryRun <;> cases hw : c.writeOk <;> simp [hw]
      · have ht2 : jsonTruthy j = false := by simpa using ht
        simp [h1b, hm, ht2]

theorem normalStep_ok (parse : List Nat → Option FLACAudio) (loads : String → Option Json)
    (dryRun : Bool) (c : FileCase) (backups : List (String × List Nat))
    (h : normalSafeMeta (get_metadata_from_openrouter loads c.reply)) :
    ∃ out, normalStep parse loads dryRun c backups = .ok out := by
  unfold normalStep
  rcases hval : validate_flac_file parse c.bytes with msg | audio
  · rcases hconv : (convert_to_flac parse c.stem c.ext c.conv ⟨c.bytes, backups⟩).handle
      with _ | audio2
    · simp [hconv]
    · simp only [hconv]
      exact normalAfterValid_ok loads dryRun c audio2 _ h
  · exact normalAfterValid_ok loads dryRun c audio _ h

theorem process_normal_sum (parse : List Nat → Option FLACAudio)
    (loads : String → Option Json) (dryRun : Bool) :
    ∀ (files : List FileCase) (backups : List (String × List Nat)),
      (∀ c ∈ files, normalSafeMeta (get_metadata_from_openrouter loads c.reply)) →
      ∃ counts, process_folder_normal parse loads dryRun files backups = .ok counts ∧
        counts.processed + counts.skipped + counts.failed = files.length := by
  intro files
  induction files with
  | nil => exact fun backups _ => ⟨⟨0, 0, 0⟩, rfl, rfl⟩
  | cons c cs ih =>
    intro backups hsafe
    obtain ⟨out, hout⟩ := normalStep_ok parse loads dryRun c backups (hsafe c (by simp))
    obtain ⟨counts, hc, hsum⟩ := ih out.backups (fun x hx => hsafe x (by simp [hx]))
    refine ⟨nbump out.bucket counts, ?_, ?_⟩
    · simp only [process_folder_normal, hout, hc]
    · cases hb : out.bucket <;> simp [nbump] <;> omega

theorem reconcileE_ok (fields : List (String × Json)) (current : List (String × TagVal))
    (h : ∀ key ∈ (["composer", "work", "movement"] : List String),
      ∃ sres, orEmpty (fields.lookup key) = .ok sres) :
    ∃ r, reconcileE (.obj fields) current = .ok r := by
  obtain ⟨s1, e1⟩ := h "composer" (by simp)
  obtain ⟨s2, e2⟩ := h "work" (by simp)
  obtain ⟨s3, e3⟩ := h "movement" (by simp)
  simp only [reconcileE, comparisons, List.foldlM, dictGet, bind, Except.bind, e1, e2, e3,
    pure, Except.pure]
  split_ifs <;> exact ⟨_, rfl⟩

theorem auditAfterValid_ok (loads : String → Option Json) (dryRun : Bool) (c : FileCase)
    (audio : FLACAudio) (s : ConvState)
    (h : auditSafeMeta (get_metadata_from_openrouter loads c.reply)) :
    ∃ out, auditAfterValid loads dryRun c audio s = .ok out := by
  unfold auditAfterValid
  rcases hm : get_metadata_from_openrouter loads c.reply with _ | j
  · simp [hm]
  · rw [hm] at h
    by_cases ht : jsonTruthy j = true
    · obtain ⟨fields, rfl, hfields⟩ := h ht
      obtain ⟨r, hr⟩ := reconcileE_ok fields (get_current_metadata audio) hfields
      simp only [hm, ht, hr, if_true]
      rcases r with ⟨flag, changes⟩
      cases flag <;> cases dryRun <;> cases ha : c.approve <;> cases hw : c.writeOk <;>
        simp [ha, hw]
    · have ht2 : jsonTruthy j = false := by simpa using ht
      simp [hm, ht2]

theorem auditStep_ok (parse : List Nat → Option FLACAudio) (loads : String → Option Json)
    (dryRun : Bool) (c : FileCase) (backups : List (String × List Nat))
    (h : auditSafeMeta (get_metadata_from_openrouter loads c.reply)) :
    ∃ out, auditStep parse loads dryRun c backups = .ok out := by
  unfold auditStep
  rcases hval : validate_flac_file parse c.bytes with msg | audio
  · rcases hconv : (convert_to_flac parse c.stem c.ext c.conv ⟨c.bytes, backups⟩).handle
      with _ | audio2
    · simp [hconv]
    · simp only [hconv]
      exact auditAfterValid_ok loads dryRun c audio2 _ h
  · exact auditAfterValid_ok loads dryRun c audio _ h

theorem process_audit_sum (parse : List Nat → Option FLACAudio)
    (loads : String → Option Json) (dryRun : Bool) :
    ∀ (files : List FileCase) (backups : List (String × List Nat)),
      (∀ c ∈ files, auditSafeMeta (get_metadata_from_openrouter loads c.reply)) →
      ∃ counts, process_folder_audit parse loads dryRun files backups = .ok counts ∧
        counts.verified + counts.updated + counts.skipped + counts.failed = files.length := by
  intro files
  induction files with
  | nil => exact fun backups _ => ⟨⟨0, 0, 0, 0⟩, rfl, rfl⟩
  | cons c cs ih =>
    intro backups hsafe
    obtain ⟨out, hout⟩ := auditStep_ok parse loads dryRun c backups (hsafe c (by simp))
    obtain ⟨counts, hc, hsum⟩ := ih out.backups (fun x hx => hsafe x (by simp [hx]))
    refine ⟨abump out.bucket counts, ?_, ?_⟩
    · simp only [process_folder_audit, hout, hc]
    · cases hb : out.bucket <;> simp [abump] <;> omega

theorem normal_none_failed (parse : List Nat → Option FLACAudio)
    (loads : String → Option Json) (dryRun : Bool) (c : FileCase) (cs : List FileCase)
    (backups : List (String × List Nat)) (audio : FLACAudio)
    (hval : validate_flac_file parse c.bytes = .ok audio)
    (hmeta : (has_proper_metadata audio).1 = false)
    (hnone : get_metadata_from_openrouter loads c.reply = none) :
    process_folder_normal parse loads dryRun (c :: cs) backups =
      (process_folder_normal parse loads dryRun cs backups).map
        (fun counts => ⟨counts.processed, counts.skipped, counts.failed + 1⟩) := by
  have hstep : normalStep parse loads dryRun c backups = .ok ⟨.failed, c.bytes, backups, false⟩ := by
    unfold normalStep normalAfterValid
    simp [hval, hmeta, hnone]
  simp only [process_folder_normal, hstep]
  rcases hrest : process_folder_normal parse loads dryRun cs backups with e | counts <;>
    simp [Except.map, nbump]

theorem audit_none_failed (parse : List Nat → Option FLACAudio)
    (loads : String → Option Json) (dryRun : Bool) (c : FileCase) (cs : List FileCase)
    (backups : List (String × List Nat)) (audio : FLACAudio)
    (hval : validate_flac_file parse c.bytes = .ok audio)
    (hnone : get_metadata_from_openrouter loads c.reply = none) :
    process_folder_audit parse loads dryRun (c :: cs) backups =
      (process_folder_audit parse loads dryRun cs backups).map
        (fun counts => ⟨counts.verified, counts.updated, counts.skipped, counts.failed + 1⟩) := by
  have hstep : auditStep parse loads dryRun c backups = .ok ⟨.failed, c.bytes, backups, false⟩ := by
    unfold auditStep auditAfterValid
    simp [hval, hnone]
  simp only [process_folder_audit, hstep]
  rcases hrest : process_folder_audit parse loads dryRun cs backups with e | counts <;>
    simp [Except.map, abump]

/-! ### The claims -/

/-- Claim C1 (code bug): with the dry-run flag enabled the pipeline
still invokes `convert_to_flac` on an invalid file, so the file's
on-disk bytes change (the original moves to the backup directory and
the converted bytes replace it), contradicting the dry-run invariant
and the code's own "No files will be modified" banner.  The theorem
evaluates the normal-mode step at the failing input: dry-run is on,
yet the file's bytes end up replaced and a backup entry appears. -/
theorem C1_dry_run_still_converts :
    normalStep demoParse json_loads true c1Case [] =
      .ok ⟨.skipped, goodFlacBytes, [("song_original_unknown.flac", [0, 1, 2])], false⟩ ∧
    c1Case.bytes ≠ goodFlacBytes := by
  exact ⟨rfl, by decide⟩

/-- Claim C2 counterexample: on the post-conversion re-validation
failure path the source path holds the converted bytes (not the
original) and a backup of the original exists, so conversion is not
all-or-nothing on every failure path as claimed. -/
theorem C2_revalidation_failure_mutates :
    (convert_to_flac rejectParse "song" ".flac" ⟨true, 0, some [9, 9, 9]⟩
        ⟨[1, 2, 3], []⟩).handle = none ∧
    (convert_to_flac rejectParse "song" ".flac" ⟨true, 0, some [9, 9, 9]⟩
        ⟨[1, 2, 3], []⟩).state.source = [9, 9, 9] ∧
    ([9, 9, 9] : List Nat) ≠ [1, 2, 3] ∧
    (convert_to_flac rejectParse "song" ".flac" ⟨true, 0, some [9, 9, 9]⟩
        ⟨[1, 2, 3], []⟩).state.backups ≠ [] := by
  exact ⟨rfl, rfl, by decide, by decide⟩

/-- Claim C2 (amended): on the failure paths before the backup move —
transcoder unavailable, non-zero exit, or missing output file — the
source bytes and the backup directory are unchanged; on a
post-conversion re-validation failure the call still fails, but the
source path holds the converted bytes and the original is archived in
the backup directory. -/
theorem C2_failure_contract (parse : List Nat → Option FLACAudio) (stem ext : String) (env : ConvEnv)
    (s : ConvState) :
    ((env.ffmpegAvailable = false ∨ env.returncode ≠ 0 ∨ env.output = none) →
      convert_to_flac parse stem ext env s = ⟨none, s⟩) ∧
    (∀ o msg, env.ffmpegAvailable = true → env.returncode = 0 → env.output = some o →
      validate_flac_file parse o = .error msg →
      (convert_to_flac parse stem ext env s).handle = none ∧
      (convert_to_flac parse stem ext env s).state.source = o ∧
      ∃ name, (convert_to_flac parse stem ext env s).state.backups =
        (name, s.source) :: s.backups) := by
  rcases env with ⟨avail, rc, out⟩
  constructor
  · rintro (h | h | h)
    · subst h; simp [convert_to_flac]
    · cases avail
      · simp [convert_to_flac]
      · simp [convert_to_flac, h]
    · subst h
      cases avail
      · simp [convert_to_flac]
      · by_cases hrc : rc = 0 <;> simp [convert_to_flac, hrc]
  · intro o msg ha hrc hout hv
    subst ha hrc hout
    simp [convert_to_flac, hv]

/-- Claim C2 witness: the amended theorem applied at concrete inputs —
an unavailable transcoder leaves the state untouched, and a
re-validation failure still returns no handle. -/
theorem C2_failure_contract_witness :
    convert_to_flac rejectParse "song" ".flac" ⟨false, 0, none⟩ ⟨[1, 2, 3], []⟩ =
      ⟨none, ⟨[1, 2, 3], []⟩⟩ ∧
    (convert_to_flac rejectParse "song" ".flac" ⟨true, 0, some [9, 9, 9]⟩
        ⟨[1, 2, 3], []⟩).handle = none := by
  constructor
  · exact (C2_failure_contract rejectParse "song" ".flac" ⟨false, 0, none⟩
      ⟨[1, 2, 3], []⟩).1 (Or.inl rfl)
  · exact ((C2_failure_contract rejectParse "song" ".flac" ⟨true, 0, some [9, 9, 9]⟩
      ⟨[1, 2, 3], []⟩).2 [9, 9, 9] "Not a FLAC file" rfl rfl rfl rfl).1

/-- Claim C3: when conversion succeeds, the backup directory gained
exactly one entry holding the pre-conversion source bytes, named with
the original stem, the detected format and the original extension,
with the first free numeric suffix (every smaller suffix was taken, so
no existing backup is overwritten), and the bytes now at the source
path pass FLAC validation with the returned handle. -/
theorem C3_convert_success (parse : List Nat → Option FLACAudio) (stem ext : String) (env : ConvEnv)
    (s : ConvState) (audio : FLACAudio)
    (hok : (convert_to_flac parse stem ext env s).handle = some audio) :
    ∃ k,
      (convert_to_flac parse stem ext env s).state.backups =
        (backupName stem (detect_actual_format s.source) ext k, s.source) :: s.backups ∧
      backupName stem (detect_actual_format s.source) ext k ∉ s.backups.map Prod.fst ∧
      (∀ i < k, backupName stem (detect_actual_format s.source) ext i ∈
        s.backups.map Prod.fst) ∧
      validate_flac_file parse (convert_to_flac parse stem ext env s).state.source =
        .ok audio := by
  rcases env with ⟨avail, rc, out⟩
  cases avail
  · simp [convert_to_flac] at hok
  · rcases out with _ | o
    · by_cases hrc : rc = 0 <;> simp [convert_to_flac, hrc] at hok
    · by_cases hrc : rc = 0
      · rcases hv : validate_flac_file parse o with msg | a
        · simp [convert_to_flac, hrc, hv] at hok
        · have hres : convert_to_flac parse stem ext ⟨true, rc, some o⟩ s =
              ⟨some a, ⟨o,
                (backupName stem (detect_actual_format s.source) ext
                    (freshCounter (s.backups.map Prod.fst) stem
                      (detect_actual_format s.source) ext),
                  s.source) :: s.backups⟩⟩ := by
            simp [convert_to_flac, hrc, hv]
          rw [hres] at hok
          simp at hok
          subst hok
          obtain ⟨hfr, hprev⟩ :=
            freshCounter_spec (s.backups.map Prod.fst) stem (detect_actual_format s.source) ext
          exact ⟨_, by rw [hres], hfr, hprev, by rw [hres]; exact hv⟩
      · simp [convert_to_flac, hrc] at hok

/-- Claim C3 witness: the theorem applied to a concrete conversion in
which the unsuffixed backup name is already taken. -/
theorem C3_convert_success_witness :
    ∃ k,
      (convert_to_flac demoParse "song" ".flac" ⟨true, 0, some goodFlacBytes⟩
          ⟨[0, 1, 2], [("song_original_unknown.flac", [5])]⟩).state.backups =
        (backupName "song" (detect_actual_format [0, 1, 2]) ".flac" k, [0, 1, 2]) ::
          [("song_original_unknown.flac", [5])] ∧
      backupName "song" (detect_actual_format [0, 1, 2]) ".flac" k ∉
        [("song_original_unknown.flac", ([5] : List Nat))].map Prod.fst ∧
      (∀ i < k, backupName "song" (detect_actual_format [0, 1, 2]) ".flac" i ∈
        [("song_original_unknown.flac", ([5] : List Nat))].map Prod.fst) ∧
      validate_flac_file demoParse
          (convert_to_flac demoParse "song" ".flac" ⟨true, 0, some goodFlacBytes⟩
            ⟨[0, 1, 2], [("song_original_unknown.flac", [5])]⟩).state.source =
        .ok demoFullTags :=
  C3_convert_success demoParse "song" ".flac" ⟨true, 0, some goodFlacBytes⟩
    ⟨[0, 1, 2], [("song_original_unknown.flac", [5])]⟩ demoFullTags rfl

/-- Claim C4 counterexample: a reply decoding to a JSON array is
returned as the parsed value — not a `None` failure — so a reply whose
top-level shape is not an object does not yield a Failure result. -/
theorem C4_non_object_returned :
    get_metadata_from_openrouter json_loads (.ok "[1, 2]") = some (.arr [.num 1, .num 2]) ∧
    (∀ fields, Json.arr [.num 1, .num 2] ≠ .obj fields) :=
  ⟨rfl, fun _ h => Json.noConfusion h⟩

/-- Claim C4 (amended): a raised service exception yields `None`; an
ok reply is fence-stripped and handed to the JSON decoder, whose
result is returned unchecked (so a decode failure yields `None`, and a
non-object decode is returned as-is); the stripping recovers the
trimmed content of a ```json … ``` fence and of a bare triple-backtick
wrap. -/
theorem C4_reply_pipeline (loads : String → Option Json) :
    (∀ e, get_metadata_from_openrouter loads (.error e) = none) ∧
    (∀ raw, get_metadata_from_openrouter loads (.ok raw) = loads (extractReply raw)) ∧
    (∀ raw, loads (extractReply raw) = none →
      get_metadata_from_openrouter loads (.ok raw) = none) ∧
    (∀ inner, backtick ∉ inner →
      extractReply ⟨fenceJson ++ inner ++ fence3⟩ = ⟨stripList inner⟩) ∧
    (∀ inner, inner ≠ [] → backtick ∉ inner → 'j' ∉ inner →
      extractReply ⟨fence3 ++ inner ++ fence3⟩ = ⟨stripList inner⟩) :=
  ⟨fun _ => rfl, fun _ => rfl,
    fun raw h => (rfl : get_metadata_from_openrouter loads (.ok raw) =
      loads (extractReply raw)).trans h,
    extractReply_fenced, extractReply_bare⟩

/-- Claim C4 witness: the amended theorem applied to a concrete fenced
reply and to a raised service exception. -/
theorem C4_reply_pipeline_witness :
    extractReply ⟨fenceJson ++ [' ', '[', '4', ']'] ++ fence3⟩ =
      ⟨stripList [' ', '[', '4', ']']⟩ ∧
    get_metadata_from_openrouter json_loads (.error ()) = none :=
  ⟨(C4_reply_pipeline json_loads).2.2.2.1 [' ', '[', '4', ']'] (by decide),
    (C4_reply_pipeline json_loads).1 ()⟩

/-- Claim C5: the audit comparison's changed flag equals the spec's
description — for the three compared pairs, a pair changes iff the new
value is non-empty and its trimmed, case-folded form differs from the
old value's (first element when the old value is a list) — and on the
spec's example (old COMPOSER `bach, j.s.` vs new `Bach, J.S.`) the
flag is false. -/
theorem C5_reconciler_flag :
    (∀ (c w mv : Option String) (current : List (String × TagVal)),
      (reconcileE (mkRecordJson c w mv) current).map Prod.fst =
        .ok (specChanged c w mv current)) ∧
    (reconcileE (mkRecordJson (some "Bach, J.S.") none none)
        [("COMPOSER", TagVal.one "bach, j.s.")]).map Prod.fst = .ok false := by
  exact ⟨reconcileE_mkRecord, rfl⟩

/-- Claim C6 counterexample: writing a full record whose soloist list
has exactly one entry and reading it back yields PERFORMER as a bare
string, not as the soloists list. -/
theorem C6_singleton_soloists_snapshot :
    (get_current_metadata (apply_metadata_to_flac c6Record ⟨[]⟩)).lookup "PERFORMER" =
      some (TagVal.one "S") ∧
    TagVal.one "S" ≠ TagVal.many ["S"] ∧ c6Record.soloists = some ["S"] := by
  exact ⟨rfl, by decide, rfl⟩

/-- Claim C6 (amended): writing a record with every field set (truthy)
and reading it back yields ALBUM = WORK = work, TITLE = movement,
ARTIST = ALBUMARTIST = comma-joined performers, ORCHESTRA = ENSEMBLE =
orchestra, DATE/DISCNUMBER/TRACKNUMBER = the date/disc/track strings,
and PERFORMER = the soloists list — delivered as a bare string when
that list has exactly one element. -/
theorem C6_roundtrip_amended (c w mv orch date disc track : String) (perfs sols : List String)
    (a : FLACAudio) (snap : List (String × TagVal))
    (hsnap : snap = get_current_metadata (apply_metadata_to_flac
      ⟨some c, some w, some mv, some perfs, some orch, some sols, some date, some disc,
        some track⟩ a))
    (hc : c ≠ "") (hw : w ≠ "") (hmv : mv ≠ "") (horch : orch ≠ "")
    (hdate : date ≠ "") (hdisc : disc ≠ "") (htrack : track ≠ "")
    (hperfs : perfs ≠ []) (hsols : sols ≠ []) :
    snap.lookup "COMPOSER" = some (.one c) ∧
    snap.lookup "ALBUM" = some (.one w) ∧ snap.lookup "WORK" = some (.one w) ∧
    snap.lookup "TITLE" = some (.one mv) ∧
    snap.lookup "ARTIST" = some (.one (joinComma perfs)) ∧
    snap.lookup "ALBUMARTIST" = some (.one (joinComma perfs)) ∧
    snap.lookup "ORCHESTRA" = some (.one orch) ∧ snap.lookup "ENSEMBLE" = some (.one orch) ∧
    snap.lookup "PERFORMER" =
      some (if sols.length = 1 then TagVal.one (sols.headD "") else TagVal.many sols) ∧
    snap.lookup "DATE" = some (.one date) ∧ snap.lookup "DISCNUMBER" = some (.one disc) ∧
    snap.lookup "TRACKNUMBER" = some (.one track) := by
  subst hsnap
  rcases sols with _ | ⟨s1, rest⟩
  · exact absurd rfl hsols
  · rcases rest with _ | ⟨s2, rest2⟩ <;>
      simp [apply_metadata_to_flac, optStrTruthy, optListTruthy, setTag, get_current_metadata,
        snapshot_fields, getTag, List.lookup, bne_iff_ne, hc, hw, hmv, horch, hdate, hdisc,
        htrack, hperfs]

/-- Claim C6 witness: the amended round-trip applied to a concrete
record with two soloists. -/
theorem C6_roundtrip_amended_witness :
    (get_current_metadata (apply_metadata_to_flac
        ⟨some "Bach", some "W", some "M", some ["P1", "P2"], some "O", some ["S1", "S2"],
          some "1999", some "1", some "2"⟩ ⟨[]⟩)).lookup "PERFORMER" =
      some (TagVal.many ["S1", "S2"]) := by
  have h := C6_roundtrip_amended "Bach" "W" "M" "O" "1999" "1" "2" ["P1", "P2"] ["S1", "S2"]
    ⟨[]⟩ _ rfl (by decide) (by decide) (by decide) (by decide) (by decide) (by decide)
    (by decide) (by decide) (by decide)
  have h9 := h.2.2.2.2.2.2.2.2.1
  simpa using h9

/-- Claim C7 counterexample: an ALBUM tag holding an empty first value
followed by a non-empty one still counts as missing `work`, although
the alias holds a non-empty, non-whitespace value — the code only
inspects the first value. -/
theorem C7_first_value_only :
    has_proper_metadata c7Audio = (false, ["work"]) ∧
    "X" ∈ (getTag c7Audio "ALBUM").getD [] ∧ pyStrip "X" ≠ "" := by
  decide

/-- Claim C7 (amended): the required-metadata check reports a semantic
field as present iff at least one of its alias tags is present with a
non-empty value list whose FIRST value is non-empty after stripping,
the boolean result is equivalent to the missing list being empty, and
the missing list carries semantic field names. -/
theorem C7_required_fields_amended (a : FLACAudio) (f : String) (al : List String)
    (hmem : (f, al) ∈ required_fields) :
    ((has_proper_metadata a).1 = true ↔ (has_proper_metadata a).2 = []) ∧
    (f ∉ (has_proper_metadata a).2 ↔ ∃ t ∈ al, aliasFirstProper a t) := by
  constructor
  · simp [has_proper_metadata, List.isEmpty_iff]
  · fin_cases hmem <;>
      simp [has_proper_metadata, required_fields, List.mem_map, List.mem_filter,
        tagFirstNonWS_iff a] <;> tauto

/-- Claim C7 witness: the amended theorem applied to the complete demo
handle and the `composer` table row. -/
theorem C7_required_fields_amended_witness :
    ((has_proper_metadata demoFullTags).1 = true ↔ (has_proper_metadata demoFullTags).2 = []) ∧
    ("composer" ∉ (has_proper_metadata demoFullTags).2 ↔
      ∃ t ∈ ["COMPOSER"], aliasFirstProper demoFullTags t) :=
  C7_required_fields_amended demoFullTags "composer" ["COMPOSER"] (by decide)

/-- Claim C8 counterexample: the 3-byte truncated header `ID3` is
classified as mp3, not as unknown, so truncated input is not always
treated as unknown. -/
theorem C8_truncated_id3 :
    detect_actual_format [0x49, 0x44, 0x33] = "mp3" ∧
    ([0x49, 0x44, 0x33] : List Nat).length < 12 ∧ ("mp3" : String) ≠ "unknown" := by
  exact ⟨rfl, by decide, by decide⟩

/-- Claim C8 (amended): for every byte sequence — truncated ones
included, since short slices simply fail the comparisons and nothing
is raised — the sniffer returns exactly the spec's magic-byte table
classification, and it returns unknown iff no signature matches. -/
theorem C8_sniffer_table (b : List Nat) :
    detect_actual_format b = classifySpec b ∧
      (detect_actual_format b = "unknown" ↔
        ¬(sigFlac b ∨ sigWav b ∨ sigMp3 b ∨ sigOgg b ∨ sigM4a b)) :=
  ⟨detect_eq_classifySpec b, detect_unknown_iff b⟩

/-- Claim C9 counterexample: a service reply decoding to the truthy
non-object `[7, 8]` crashes both pipeline modes (an uncaught
`AttributeError`), so that file feeds no counter bucket and the run
aborts. -/
theorem C9_truthy_non_object_crashes :
    process_folder_normal demoParseEmpty json_loads false [c9Case] [] = .error () ∧
    process_folder_audit demoParseEmpty json_loads false [c9Case] [] = .error () ∧
    get_metadata_from_openrouter json_loads c9Case.reply = some (.arr [.num 7, .num 8]) :=
  ⟨rfl, rfl, rfl⟩

/-- Claim C9 (amended): provided no file's derivation result is a
truthy non-object (and, in audit mode, its compared fields are strings
or falsy), every enumerated file feeds exactly one bucket and the
buckets sum to the number of enumerated files, in both modes. -/
theorem C9_buckets_partition :
    (∀ parse loads dryRun (files : List FileCase) backups,
      (∀ c ∈ files, normalSafeMeta (get_metadata_from_openrouter loads c.reply)) →
      ∃ counts, process_folder_normal parse loads dryRun files backups = .ok counts ∧
        counts.processed + counts.skipped + counts.failed = files.length) ∧
    (∀ parse loads dryRun (files : List FileCase) backups,
      (∀ c ∈ files, auditSafeMeta (get_metadata_from_openrouter loads c.reply)) →
      ∃ counts, process_folder_audit parse loads dryRun files backups = .ok counts ∧
        counts.verified + counts.updated + counts.skipped + counts.failed = files.length) :=
  ⟨fun parse loads dryRun files backups h => process_normal_sum parse loads dryRun files backups h,
    fun parse loads dryRun files backups h => process_audit_sum parse loads dryRun files backups h⟩

/-- Claim C9 witness: the amended theorem applied to a one-file run
whose derivation fails (a safe outcome): the buckets sum to 1. -/
theorem C9_buckets_partition_witness :
    ∃ counts, process_folder_normal demoParseEmpty json_loads false [c10Case] [] = .ok counts ∧
      counts.processed + counts.skipped + counts.failed = 1 := by
  have h := C9_buckets_partition.1 demoParseEmpty json_loads false [c10Case] []
    (by
      intro c hc
      simp only [List.mem_singleton] at hc
      subst hc
      rw [show get_metadata_from_openrouter json_loads c10Case.reply = none from rfl]
      trivial)
  simpa using h

/-- Claim C10: the derivation call never raises — a raised service
error yields `None` and an ok reply yields exactly the decoder's
result on the stripped text — and both modes treat `None` as a
per-file failure and continue: processing `c :: cs` when `c`'s
derivation returns `None` equals processing `cs` with one more
failure. -/
theorem C10_derivation_total :
    (∀ (loads : String → Option Json) (e : Unit),
      get_metadata_from_openrouter loads (.error e) = none) ∧
    (∀ (loads : String → Option Json) raw,
      get_metadata_from_openrouter loads (.ok raw) = loads (extractReply raw)) ∧
    (∀ parse loads dryRun (c : FileCase) cs backups audio,
      validate_flac_file parse c.bytes = .ok audio →
      (has_proper_metadata audio).1 = false →
      get_metadata_from_openrouter loads c.reply = none →
      process_folder_normal parse loads dryRun (c :: cs) backups =
        (process_folder_normal parse loads dryRun cs backups).map
          (fun counts => ⟨counts.processed, counts.skipped, counts.failed + 1⟩)) ∧
    (∀ parse loads dryRun (c : FileCase) cs backups audio,
      validate_flac_file parse c.bytes = .ok audio →
      get_metadata_from_openrouter loads c.reply = none →
      process_folder_audit parse loads dryRun (c :: cs) backups =
        (process_folder_audit parse loads dryRun cs backups).map
          (fun counts => ⟨counts.verified, counts.updated, counts.skipped, counts.failed + 1⟩)) :=
  ⟨fun _ _ => rfl, fun _ _ => rfl,
    fun parse loads dryRun c cs backups audio hval hmeta hnone =>
      normal_none_failed parse loads dryRun c cs backups audio hval hmeta hnone,
    fun parse loads dryRun c cs backups audio hval hnone =>
      audit_none_failed parse loads dryRun c cs backups audio hval hnone⟩

/-- Claim C10 witness: a one-file run whose reply is not JSON ends
with one failure and an intact run. -/
theorem C10_derivation_total_witness :
    process_folder_normal demoParseEmpty json_loads false [c10Case] [] = .ok ⟨0, 0, 1⟩ := by
  have h := C10_derivation_total.2.2.1 demoParseEmpty json_loads false c10Case [] []
    ⟨[]⟩ rfl rfl rfl
  exact h.trans rfl

end Music
